import Mathlib

/-!
Verification of `transactionlogger.go` (package transactionlogger).

The Go source is shallowly embedded below:

* `ParseLoggerUrl` uses Go's `regexp` package (RE2 with Perl leftmost-first,
  greedy matching semantics) with the two unanchored patterns
  `(\S+)://(\S+):([0-9]+)` and `(\S+)://(\S+)`.  The embedding implements a
  backtracking matcher specialised to those two patterns: a greedy `\S+`
  (or `[0-9]+`) group tries the longest candidate first and shrinks on
  failure of the continuation, and `FindStringSubmatch` tries start
  positions from the left.
* `New` reads the configuration string and dispatches on the parsed
  protocol.  Environment/flag reading and the operating system (chmod,
  create, syslog dial) are parameters (`OsModel`), mirroring the calls the
  Go code makes.
* The buffered channel `ch` of `PublisherStdout` / `PublisherRsyslog`
  together with the worker goroutine is modelled as an explicit state
  machine: a send on a full buffer has no successor state (the goroutine
  blocks), a worker step dequeues the oldest entry and appends
  `s ++ "\n"` to the output.
-/

/-- RE2 whitespace class `\s` is `[\t\n\f\r ]`; `\S` is its negation. -/
def isSpaceGo (c : Char) : Bool :=
  c == ' ' || c == '\t' || c == '\n' || c == '\x0c' || c == '\x0d'

/-- Character class `\S` of the Go regexes. -/
def nonspace (c : Char) : Bool := !(isSpaceGo c)

/-- Literal `://` of both regexes: strip it from the front of the input. -/
def stripCSS : List Char → Option (List Char)
  | [] => none
  | [_] => none
  | [_, _] => none
  | a :: b :: c :: r => if a = ':' ∧ b = '/' ∧ c = '/' then some r else none

/-- Backtracking loop of a greedy one-or-more group: candidate group lengths
`n, n-1, …, 1` are tried in that order; `k` receives the group and the rest. -/
def gpAux {α : Type} (l : List Char) (k : List Char → List Char → Option α) : Nat → Option α
  | 0 => none
  | n + 1 =>
    match k (l.take (n + 1)) (l.drop (n + 1)) with
    | some r => some r
    | none => gpAux l k n

/-- Greedy `X+` for a character class `P` followed by continuation `k`
(Perl semantics: longest candidate first, backtrack on failure).  The longest
candidate is the maximal `P`-run at the front of `l`. -/
def greedyPlus {α : Type} (P : Char → Bool) (l : List Char)
    (k : List Char → List Char → Option α) : Option α :=
  gpAux l k (l.takeWhile P).length

/-- Trailing greedy `([0-9]+)` (nothing follows it in the pattern):
takes the maximal digit run, succeeds iff it is nonempty. -/
def matchDigitsGreedy (l : List Char) : Option (List Char) :=
  let d := l.takeWhile Char.isDigit
  if d = [] then none else some d

/-- Trailing greedy `(\S+)`: maximal nonspace run and the rest. -/
def matchTokenGreedy (l : List Char) : Option (List Char × List Char) :=
  let d := l.takeWhile nonspace
  if d = [] then none else some (d, l.drop d.length)

/-- Continuation after the second greedy group of `(\S+)://(\S+):([0-9]+)`:
the rest must start with `:` followed by at least one digit. -/
def hostPortCont (g2 r : List Char) : Option (List Char × List Char) :=
  match r with
  | [] => none
  | c :: y =>
    if c = ':' then
      match matchDigitsGreedy y with
      | some d => some (g2, d)
      | none => none
    else none

/-- Greedy `(\S+):([0-9]+)` on `l` (the part after `://` in pattern 2). -/
def matchHostPort (l : List Char) : Option (List Char × List Char) :=
  greedyPlus nonspace l hostPortCont

/-- Continuation after the first greedy group of pattern 2. -/
def urlCont (g1 r : List Char) : Option (List Char × List Char × List Char) :=
  match stripCSS r with
  | some r2 =>
    match matchHostPort r2 with
    | some (h, d) => some (g1, h, d)
    | none => none
  | none => none

/-- Pattern 2 `(\S+)://(\S+):([0-9]+)` anchored at the current position. -/
def matchUrlAt (l : List Char) : Option (List Char × List Char × List Char) :=
  greedyPlus nonspace l urlCont

/-- `reLoggerURL.FindStringSubmatch`: unanchored search, leftmost start wins. -/
def findUrlMatch : List Char → Option (List Char × List Char × List Char)
  | [] => none
  | c :: t =>
    match matchUrlAt (c :: t) with
    | some m => some m
    | none => findUrlMatch t

/-- Continuation after the first greedy group of pattern 3 `(\S+)://(\S+)`. -/
def protoCont (g1 r : List Char) : Option (List Char × List Char) :=
  match stripCSS r with
  | some r2 =>
    match matchTokenGreedy r2 with
    | some (h, _) => some (g1, h)
    | none => none
  | none => none

/-- Pattern 3 `(\S+)://(\S+)` anchored at the current position. -/
def matchProtoAt (l : List Char) : Option (List Char × List Char) :=
  greedyPlus nonspace l protoCont

/-- `reLoggerProtocol.FindStringSubmatch`: unanchored search. -/
def findProtoMatch : List Char → Option (List Char × List Char)
  | [] => none
  | c :: t =>
    match matchProtoAt (c :: t) with
    | some m => some m
    | none => findProtoMatch t

/-- Numeric value of a digit string (the digits are already guaranteed by the
regex to be in `[0-9]`). -/
def digitsVal (l : List Char) : Nat :=
  l.foldl (fun a c => 10 * a + (c.toNat - 48)) 0

/-- `strconv.Atoi` on an all-digit string with the error discarded (`port, _ :=
strconv.Atoi(match[3])`): on 64-bit overflow Atoi reports `ErrRange` and
returns `math.MaxInt64`, which the code keeps because it ignores the error. -/
def goAtoi (l : List Char) : Int :=
  Int.ofNat (min (digitsVal l) (2 ^ 63 - 1))

/-- Go struct `LoggerParameters`. -/
structure LoggerParameters where
  Protocol : String
  Port : Int
  Host : String
  deriving DecidableEq, Repr

deriving instance DecidableEq for Except

/-- Go `ParseLoggerUrl`: bare keywords first, then pattern 2, then pattern 3,
else an error. -/
def ParseLoggerUrl (url : String) : Except String LoggerParameters :=
  if url = "debug" ∨ url = "stdout" ∨ url = "stderr" ∨ url = "dummy" ∨ url = "sink" then
    .ok { Protocol := url, Port := 0, Host := "localhost" }
  else
    match findUrlMatch url.data with
    | some (g1, g2, g3) =>
      .ok { Port := goAtoi g3, Host := String.mk g2, Protocol := String.mk g1 }
    | none =>
      match findProtoMatch url.data with
      | some (g1, g2) =>
        .ok { Port := if String.mk g1 = "rsyslog" then 514 else 0
              Host := String.mk g2
              Protocol := String.mk g1 }
      | none => .error ("Failed to parse " ++ url)

/-- The file handle a `PublisherStdout` writes to (`outputIo *os.File`). -/
inductive StreamDest where
  | stdoutFd : StreamDest
  | stderrFd : StreamDest
  | file : String → StreamDest
  deriving DecidableEq, Repr

/-- The value `New` stores in the `Publisher` interface variable.  `stream`
carries the channel capacity and the file handle of `NewStdout`; `rsyslog`
carries the capacity, remote address and tag of `NewRsyslog`. -/
inductive Publisher where
  | dummy : Publisher
  | debug : Publisher
  | stream : Nat → StreamDest → Publisher
  | rsyslog : Nat → String → String → Publisher
  deriving DecidableEq, Repr

/-- The operating-system collaborators `New` calls: `os.Chmod`, `os.Create`
and `syslog.Dial` (keyed by the remote address; the transport is always
`"tcp"` because the `--udp` flag keeps its default `false`). -/
structure OsModel where
  chmodOk : String → Bool
  createOk : String → Bool
  dialErr : String → Option String

/-- Go `NewStdout`: a `PublisherStdout` with a fresh channel of the given
capacity around the given handle. -/
def NewStdout (logChSize : Nat) (outputFd : StreamDest) : Publisher :=
  Publisher.stream logChSize outputFd

/-- Go `NewDebug`. -/
def NewDebug : Publisher := Publisher.debug

/-- Go `NewDummy`. -/
def NewDummy : Publisher := Publisher.dummy

/-- Go `NewRsyslog`: dial `host:port` over TCP; on dial error return the
error, otherwise a `PublisherRsyslog`. -/
def NewRsyslog (logChSize : Nat) (host : String) (port : Int) (tag : String)
    (os : OsModel) : Except String Publisher :=
  let raddr := host ++ ":" ++ toString port
  match os.dialErr raddr with
  | some e => .error e
  | none => .ok (Publisher.rsyslog logChSize raddr tag)

/-- Go `New`.  The configuration string is the `TRANSACTION_LOGGER`
environment value (an empty value falls back to the flag default `"dummy"`),
`logChSize` the already-resolved channel size, `os` the system calls.  The
first component is the `Publisher` interface variable at the return (`none`
models a `nil` interface), the second the status string `msg`. -/
def New (envTransactionLogger : String) (logChSize : Nat) (os : OsModel) :
    Option Publisher × String :=
  let env := if envTransactionLogger = "" then "dummy" else envTransactionLogger
  let parsed := ParseLoggerUrl env
  let params : LoggerParameters :=
    match parsed with
    | .ok q => q
    | .error _ => { Protocol := "dummy", Port := 0, Host := "" }
  let msg1 : String :=
    match parsed with
    | .ok _ => ""
    | .error _ =>
      "Failed to parse activity log URL \x27" ++ env ++ "\x27. Using default: sink"
  if params.Protocol = "rsyslog" then
    match NewRsyslog logChSize params.Host params.Port "" os with
    | .error e =>
      (none, "Failed to dial rsyslog " ++ params.Host ++ ":" ++ toString params.Port
        ++ " " ++ e)
    | .ok pub =>
      (some pub, "Transaction log goes to rsyslog " ++ params.Host ++ ":"
        ++ toString params.Port)
  else if params.Protocol = "dummy" ∨ params.Protocol = "sink" then
    (some NewDummy, "Transaction log goes to sink")
  else if params.Protocol = "debug" then
    (some NewDebug, "Transaction log goes to the service logger")
  else if params.Protocol = "stdout" then
    (some (NewStdout logChSize StreamDest.stdoutFd), "Transaction log goes to the stdout")
  else if params.Protocol = "stderr" then
    (some (NewStdout logChSize StreamDest.stderrFd), "Transaction log goes to the stderr")
  else if params.Protocol = "file" then
    let filename := params.Host
    -- os.Chmod; its failure assigns msg and a dummy publisher, but both are
    -- overwritten by whichever branch of os.Create runs next.
    if os.createOk filename then
      (some (NewStdout logChSize (StreamDest.file filename)),
        "Transaction log goes to the file \x27" ++ filename ++ "\x27")
    else
      (some NewDummy,
        "Failed to open transaction log file \x27" ++ filename ++ "\x27 for writing")
  else
    -- the switch has no default case: the interface variable stays nil and
    -- msg keeps its earlier value
    (none, msg1)

/-- Runtime state of a `PublisherStdout`: the buffered channel contents
(oldest first) and the strings written to `outputIo` so far, in order. -/
structure PublisherStdoutState where
  cap : Nat
  ch : List String
  output : List String
  deriving DecidableEq, Repr

/-- Runtime state of a `PublisherRsyslog`: the channel plus the messages
handed to `writer.Debug`, in order. -/
structure PublisherRsyslogState where
  cap : Nat
  ch : List String
  raddr : String
  tag : String
  delivered : List String
  deriving DecidableEq, Repr

/-- A send `ch <- s` on a buffered channel of capacity `cap`: enqueue when
the buffer has room; a send on a full buffer blocks (no successor state). -/
def chanSend (cap : Nat) (ch : List String) (s : String) : Option (List String) :=
  if ch.length < cap then some (ch ++ [s]) else none

/-- `PublisherStdout.Push`: `this.ch <- s`. -/
def PushStdout (st : PublisherStdoutState) (s : String) : Option PublisherStdoutState :=
  match chanSend st.cap st.ch s with
  | some ch2 => some { st with ch := ch2 }
  | none => none

/-- `PublisherRsyslog.Push`: `this.ch <- s`. -/
def PushRsyslog (st : PublisherRsyslogState) (s : String) : Option PublisherRsyslogState :=
  match chanSend st.cap st.ch s with
  | some ch2 => some { st with ch := ch2 }
  | none => none

/-- One iteration of the `PublisherStdout.start` worker goroutine:
`s := <-this.ch; this.outputIo.WriteString(s + "\n")`.  Blocks (no successor)
when the channel is empty. -/
def workerStepStdout (st : PublisherStdoutState) : Option PublisherStdoutState :=
  match st.ch with
  | [] => none
  | s :: rest => some { st with ch := rest, output := st.output ++ [s ++ "\n"] }

/-- One iteration of the `PublisherRsyslog.start` worker goroutine:
`s := <-this.ch; this.writer.Debug(s + "\n")`. -/
def workerStepRsyslog (st : PublisherRsyslogState) : Option PublisherRsyslogState :=
  match st.ch with
  | [] => none
  | s :: rest => some { st with ch := rest, delivered := st.delivered ++ [s ++ "\n"] }

/-- An event of the concurrent system: a producer's `Push` completing, or one
loop iteration of the worker goroutine. -/
inductive LogOp where
  | push : String → LogOp
  | work : LogOp
  deriving DecidableEq, Repr

/-- Linearised execution of a sequence of events against a
`PublisherStdout`.  `none` means some event could not complete (a `Push` hit
a full channel, or the worker a wait on an empty one). -/
def runStdout : List LogOp → PublisherStdoutState → Option PublisherStdoutState
  | [], st => some st
  | LogOp.push s :: rest, st =>
    match PushStdout st s with
    | some st2 => runStdout rest st2
    | none => none
  | LogOp.work :: rest, st =>
    match workerStepStdout st with
    | some st2 => runStdout rest st2
    | none => none

/-- Linearised execution against a `PublisherRsyslog`. -/
def runRsyslog : List LogOp → PublisherRsyslogState → Option PublisherRsyslogState
  | [], st => some st
  | LogOp.push s :: rest, st =>
    match PushRsyslog st s with
    | some st2 => runRsyslog rest st2
    | none => none
  | LogOp.work :: rest, st =>
    match workerStepRsyslog st with
    | some st2 => runRsyslog rest st2
    | none => none

/-- The entries pushed (in order) during a sequence of events. -/
def pushedEntries : List LogOp → List String
  | [] => []
  | LogOp.push s :: rest => s :: pushedEntries rest
  | LogOp.work :: rest => pushedEntries rest

/-- State of a `PublisherStdout` right after `NewStdout` ran: the channel of
`make(chan string, cap)` is empty and nothing has been written yet. -/
def initStdoutState (cap : Nat) : PublisherStdoutState :=
  { cap := cap, ch := [], output := [] }

/-- State of a `PublisherRsyslog` right after `NewRsyslog` dialled. -/
def initRsyslogState (cap : Nat) (raddr tag : String) : PublisherRsyslogState :=
  { cap := cap, ch := [], raddr := raddr, tag := tag, delivered := [] }

/-- No occurrence of the literal `://` anywhere in the list.  Wherever this
holds, neither regex can strip its `://` literal. -/
def noCSS : List Char → Bool
  | [] => true
  | [_] => true
  | [_, _] => true
  | a :: b :: c :: t => (!(a == ':' && b == '/' && c == '/')) && noCSS (b :: c :: t)

/-- No occurrence of `:` immediately followed by a decimal digit.  Wherever
this holds, the `:([0-9]+)` tail of pattern 2 can never match. -/
def noColonDigit : List Char → Bool
  | [] => true
  | [_] => true
  | a :: b :: t => (!(a == ':' && b.isDigit)) && noColonDigit (b :: t)

/-- Does `hay` start with `needle`? -/
def startsWithSeq : List Char → List Char → Bool
  | [], _ => true
  | _ :: _, [] => false
  | a :: t, b :: u => a == b && startsWithSeq t u

/-- Does `hay` contain `needle` as a contiguous subsequence? -/
def containsSeq (needle : List Char) : List Char → Bool
  | [] => startsWithSeq needle []
  | c :: t => startsWithSeq needle (c :: t) || containsSeq needle t

/-- An operating system in which every call `New` makes succeeds. -/
def osAllOk : OsModel :=
  { chmodOk := fun _ => true, createOk := fun _ => true, dialErr := fun _ => none }

/-- An operating system in which `os.Create` fails. -/
def osCreateFails : OsModel :=
  { chmodOk := fun _ => true, createOk := fun _ => false, dialErr := fun _ => none }

/-! ## Generic lemmas about the backtracking matcher -/

theorem gpAux_eq_none {α : Type} (l : List Char) (k : List Char → List Char → Option α) :
    ∀ n, (∀ j, 1 ≤ j → j ≤ n → k (l.take j) (l.drop j) = none) → gpAux l k n = none := by
  intro n
  induction n with
  | zero => intro _; rfl
  | succ m ih =>
    intro h
    have hm : k (l.take (m + 1)) (l.drop (m + 1)) = none := h (m + 1) (by omega) (by omega)
    simp only [gpAux, hm]
    exact ih fun j h1 h2 => h j h1 (by omega)

theorem gpAux_eq_some {α : Type} (l : List Char) (k : List Char → List Char → Option α) :
    ∀ n a v, 1 ≤ a → a ≤ n → k (l.take a) (l.drop a) = some v →
      (∀ j, a < j → j ≤ n → k (l.take j) (l.drop j) = none) → gpAux l k n = some v := by
  intro n
  induction n with
  | zero => intro a v h1 h2 _ _; omega
  | succ m ih =>
    intro a v h1 h2 hk hfail
    by_cases hcase : a = m + 1
    · subst hcase
      simp only [gpAux, hk]
    · have ha : a ≤ m := by omega
      have hm : k (l.take (m + 1)) (l.drop (m + 1)) = none := hfail (m + 1) (by omega) (by omega)
      simp only [gpAux, hm]
      exact ih a v h1 ha hk fun j hj1 hj2 => hfail j hj1 (by omega)

theorem gpAux_some_split {α : Type} (l : List Char) (k : List Char → List Char → Option α) :
    ∀ n v, gpAux l k n = some v → ∃ j, 1 ≤ j ∧ j ≤ n ∧ k (l.take j) (l.drop j) = some v := by
  intro n
  induction n with
  | zero => intro v h; exact absurd h (by simp [gpAux])
  | succ m ih =>
    intro v h
    cases hk : k (l.take (m + 1)) (l.drop (m + 1)) with
    | some w =>
      have hw : gpAux l k (m + 1) = some w := by simp only [gpAux, hk]
      rw [h] at hw
      exact ⟨m + 1, by omega, le_refl _, by rw [hk, Option.some_inj.1 hw]⟩
    | none =>
      have hrec : gpAux l k (m + 1) = gpAux l k m := by simp only [gpAux, hk]
      rw [h] at hrec
      obtain ⟨j, hj1, hj2, hj3⟩ := ih v hrec.symm
      exact ⟨j, hj1, by omega, hj3⟩

theorem takeWhile_all_eq (P : Char → Bool) (l : List Char) (h : ∀ c ∈ l, P c = true) :
    l.takeWhile P = l :=
  List.takeWhile_eq_self_iff.2 h

/-! ## Character-class facts -/

theorem nonspace_of_isDigit (c : Char) (h : c.isDigit = true) : nonspace c = true := by
  simp only [nonspace, isSpaceGo, Bool.not_eq_true', Bool.or_eq_false_iff,
    beq_eq_false_iff_ne, ne_eq]
  refine ⟨⟨⟨⟨?_, ?_⟩, ?_⟩, ?_⟩, ?_⟩ <;> rintro rfl <;> exact absurd h (by decide)

theorem digit_ne_colon (c : Char) (h : c.isDigit = true) : ¬ c = ':' := by
  rintro rfl; exact absurd h (by decide)

theorem digit_ne_slash (c : Char) (h : c.isDigit = true) : ¬ c = '/' := by
  rintro rfl; exact absurd h (by decide)

/-! ## Lemmas about `noCSS` -/

theorem noCSS_cons_of_ne (a : Char) (l : List Char) (ha : ¬ a = ':') (h : noCSS l = true) :
    noCSS (a :: l) = true := by
  match l with
  | [] => rfl
  | [_] => rfl
  | b :: c :: t =>
    simp only [noCSS, Bool.and_eq_true, Bool.not_eq_true'] at h ⊢
    refine ⟨?_, h⟩
    simp [beq_eq_false_iff_ne, ha]

theorem noCSS_of_all_ne (l : List Char) (h : ∀ c ∈ l, ¬ c = ':') : noCSS l = true := by
  induction l with
  | nil => rfl
  | cons a t ih =>
    exact noCSS_cons_of_ne a t (h a (List.mem_cons_self a t))
      (ih fun c hc => h c (List.mem_cons_of_mem a hc))

theorem noCSS_colon_cons (l : List Char) (h : noCSS l = true)
    (hh : ∀ c, l.head? = some c → ¬ c = '/') : noCSS (':' :: l) = true := by
  match l with
  | [] => rfl
  | [_] => rfl
  | b :: c :: t =>
    have hb : ¬ b = '/' := hh b rfl
    simp only [noCSS, Bool.and_eq_true, Bool.not_eq_true'] at h ⊢
    refine ⟨?_, h⟩
    simp [beq_eq_false_iff_ne, hb]

theorem noCSS_append_of (a b : List Char) (ha : ∀ c ∈ a, ¬ c = ':') (hb : noCSS b = true) :
    noCSS (a ++ b) = true := by
  induction a with
  | nil => simpa using hb
  | cons x t ih =>
    exact noCSS_cons_of_ne x (t ++ b) (ha x (List.mem_cons_self x t))
      (ih fun c hc => ha c (List.mem_cons_of_mem x hc))

theorem noCSS_tail (a : Char) (l : List Char) (h : noCSS (a :: l) = true) : noCSS l = true := by
  match l with
  | [] => rfl
  | [_] => rfl
  | b :: c :: t =>
    simp only [noCSS, Bool.and_eq_true] at h
    exact h.2

theorem noCSS_drop : ∀ (n : Nat) (l : List Char), noCSS l = true → noCSS (l.drop n) = true := by
  intro n
  induction n with
  | zero => intro l h; simpa using h
  | succ m ih =>
    intro l h
    match l with
    | [] => rfl
    | a :: t =>
      rw [List.drop_succ_cons]
      exact ih t (noCSS_tail a t h)

theorem stripCSS_eq_none_of_noCSS (l : List Char) (h : noCSS l = true) : stripCSS l = none := by
  match l with
  | [] => rfl
  | [_] => rfl
  | [_, _] => rfl
  | a :: b :: c :: t =>
    simp only [stripCSS]
    rw [if_neg]
    rintro ⟨rfl, rfl, rfl⟩
    simp [noCSS] at h

theorem stripCSS_eq_some (l r : List Char) (h : stripCSS l = some r) :
    l = ':' :: '/' :: '/' :: r := by
  match l with
  | [] => exact absurd h (by simp [stripCSS])
  | [_] => exact absurd h (by simp [stripCSS])
  | [_, _] => exact absurd h (by simp [stripCSS])
  | a :: b :: c :: t =>
    simp only [stripCSS] at h
    by_cases habc : a = ':' ∧ b = '/' ∧ c = '/'
    · obtain ⟨rfl, rfl, rfl⟩ := habc
      rw [if_pos ⟨rfl, rfl, rfl⟩] at h
      rw [Option.some_inj.1 h]
    · rw [if_neg habc] at h
      exact absurd h (by simp)

/-! ## Lemmas about `noColonDigit` -/

theorem noColonDigit_cons_of_ne (a : Char) (l : List Char) (ha : ¬ a = ':')
    (h : noColonDigit l = true) : noColonDigit (a :: l) = true := by
  match l with
  | [] => rfl
  | b :: t =>
    simp only [noColonDigit, Bool.and_eq_true, Bool.not_eq_true'] at h ⊢
    refine ⟨?_, h⟩
    simp [beq_eq_false_iff_ne, ha]

theorem noColonDigit_of_all_ne (l : List Char) (h : ∀ c ∈ l, ¬ c = ':') :
    noColonDigit l = true := by
  induction l with
  | nil => rfl
  | cons a t ih =>
    exact noColonDigit_cons_of_ne a t (h a (List.mem_cons_self a t))
      (ih fun c hc => h c (List.mem_cons_of_mem a hc))

theorem noColonDigit_colon_cons (l : List Char) (h : noColonDigit l = true)
    (hh : ∀ c, l.head? = some c → c.isDigit = false) : noColonDigit (':' :: l) = true := by
  match l with
  | [] => rfl
  | b :: t =>
    have hb : b.isDigit = false := hh b rfl
    simp only [noColonDigit, Bool.and_eq_true, Bool.not_eq_true'] at h ⊢
    refine ⟨?_, h⟩
    simp [hb]

theorem noColonDigit_append_of (a b : List Char) (ha : ∀ c ∈ a, ¬ c = ':')
    (hb : noColonDigit b = true) : noColonDigit (a ++ b) = true := by
  induction a with
  | nil => simpa using hb
  | cons x t ih =>
    exact noColonDigit_cons_of_ne x (t ++ b) (ha x (List.mem_cons_self x t))
      (ih fun c hc => ha c (List.mem_cons_of_mem x hc))

theorem noColonDigit_tail (a : Char) (l : List Char) (h : noColonDigit (a :: l) = true) :
    noColonDigit l = true := by
  match l with
  | [] => rfl
  | b :: t =>
    simp only [noColonDigit, Bool.and_eq_true] at h
    exact h.2

theorem noColonDigit_drop : ∀ (n : Nat) (l : List Char),
    noColonDigit l = true → noColonDigit (l.drop n) = true := by
  intro n
  induction n with
  | zero => intro l h; simpa using h
  | succ m ih =>
    intro l h
    match l with
    | [] => rfl
    | a :: t =>
      rw [List.drop_succ_cons]
      exact ih t (noColonDigit_tail a t h)

/-! ## Failure of pattern 2 on colon-digit-free input -/

theorem matchDigitsGreedy_none (y : List Char) (h : noColonDigit (':' :: y) = true) :
    matchDigitsGreedy y = none := by
  match y with
  | [] => rfl
  | d :: y' =>
    have hd : d.isDigit = false := by
      simp only [noColonDigit, Bool.and_eq_true, Bool.not_eq_true'] at h
      simpa using h.1
    simp [matchDigitsGreedy, List.takeWhile_cons, hd]

theorem hostPortCont_none (g r : List Char) (h : noColonDigit r = true) :
    hostPortCont g r = none := by
  match r with
  | [] => rfl
  | c :: y =>
    by_cases hc : c = ':'
    · subst hc
      simp [hostPortCont, matchDigitsGreedy_none y h]
    · simp only [hostPortCont]
      rw [if_neg hc]

theorem matchHostPort_none (l : List Char) (h : noColonDigit l = true) :
    matchHostPort l = none := by
  unfold matchHostPort greedyPlus
  apply gpAux_eq_none
  intro j _ _
  exact hostPortCont_none _ _ (noColonDigit_drop j l h)

theorem urlCont_none (g r : List Char) (h : noColonDigit r = true) :
    urlCont g r = none := by
  cases hst : stripCSS r with
  | none => simp [urlCont, hst]
  | some r2 =>
    have hr : r = ':' :: '/' :: '/' :: r2 := stripCSS_eq_some r r2 hst
    have h2 : noColonDigit r2 = true := by
      subst hr
      exact noColonDigit_tail _ _ (noColonDigit_tail _ _ (noColonDigit_tail _ _ h))
    simp [urlCont, hst, matchHostPort_none r2 h2]

theorem matchUrlAt_none (l : List Char) (h : noColonDigit l = true) :
    matchUrlAt l = none := by
  unfold matchUrlAt greedyPlus
  apply gpAux_eq_none
  intro j _ _
  exact urlCont_none _ _ (noColonDigit_drop j l h)

theorem findUrlMatch_none : ∀ l : List Char, noColonDigit l = true → findUrlMatch l = none := by
  intro l
  induction l with
  | nil => intro _; rfl
  | cons c t ih =>
    intro h
    simp only [findUrlMatch, matchUrlAt_none (c :: t) h]
    exact ih (noColonDigit_tail c t h)

/-! ## Exact result of pattern 2 on a well-formed `scheme://host:port` -/

theorem matchHostPort_exact (h p : List Char)
    (hh1 : h ≠ []) (hh2 : ∀ c ∈ h, nonspace c = true ∧ ¬ c = ':')
    (hp1 : p ≠ []) (hp2 : ∀ c ∈ p, c.isDigit = true) :
    matchHostPort (h ++ ':' :: p) = some (h, p) := by
  have hall : ∀ c ∈ h ++ ':' :: p, nonspace c = true := by
    intro c hc
    rcases List.mem_append.1 hc with hc | hc
    · exact (hh2 c hc).1
    · rcases List.mem_cons.1 hc with rfl | hc
      · decide
      · exact nonspace_of_isDigit c (hp2 c hc)
  unfold matchHostPort greedyPlus
  rw [takeWhile_all_eq nonspace _ hall]
  refine gpAux_eq_some _ _ _ h.length (h, p) ?_ ?_ ?_ ?_
  · have := List.length_pos.2 hh1
    omega
  · rw [List.length_append]
    omega
  · rw [List.take_left h (':' :: p), List.drop_left h (':' :: p)]
    have hd : matchDigitsGreedy p = some p := by
      simp [matchDigitsGreedy, takeWhile_all_eq Char.isDigit p hp2, hp1]
    simp [hostPortCont, hd]
  · intro j hj1 hj2
    have hdrop : (h ++ ':' :: p).drop j = p.drop (j - h.length - 1) := by
      have h1 : (h ++ ':' :: p).drop j = ((h ++ ':' :: p).drop h.length).drop (j - h.length) := by
        rw [List.drop_drop]
        congr 1
        omega
      rw [h1, List.drop_left]
      obtain ⟨i, hi⟩ : ∃ i, j - h.length = i + 1 := ⟨j - h.length - 1, by omega⟩
      rw [hi, List.drop_succ_cons]
      congr 1
    cases hq : p.drop (j - h.length - 1) with
    | nil =>
      rw [hdrop, hq]
      rfl
    | cons c y =>
      have hc : c ∈ p := List.mem_of_mem_drop (by rw [hq]; exact List.mem_cons_self c y)
      have hcc : ¬ c = ':' := digit_ne_colon c (hp2 c hc)
      rw [hdrop, hq]
      simp only [hostPortCont]
      rw [if_neg hcc]

theorem matchUrlAt_exact (s h p : List Char)
    (hs1 : s ≠ []) (hs2 : ∀ c ∈ s, nonspace c = true ∧ ¬ c = ':')
    (hh1 : h ≠ []) (hh2 : ∀ c ∈ h, nonspace c = true ∧ ¬ c = ':')
    (hp1 : p ≠ []) (hp2 : ∀ c ∈ p, c.isDigit = true) :
    matchUrlAt (s ++ ':' :: '/' :: '/' :: (h ++ ':' :: p)) = some (s, h, p) := by
  have hall : ∀ c ∈ s ++ ':' :: '/' :: '/' :: (h ++ ':' :: p), nonspace c = true := by
    intro c hc
    rcases List.mem_append.1 hc with hc | hc
    · exact (hs2 c hc).1
    · rcases List.mem_cons.1 hc with rfl | hc
      · decide
      · rcases List.mem_cons.1 hc with rfl | hc
        · decide
        · rcases List.mem_cons.1 hc with rfl | hc
          · decide
          · rcases List.mem_append.1 hc with hc | hc
            · exact (hh2 c hc).1
            · rcases List.mem_cons.1 hc with rfl | hc
              · decide
              · exact nonspace_of_isDigit c (hp2 c hc)
  unfold matchUrlAt greedyPlus
  rw [takeWhile_all_eq nonspace _ hall]
  refine gpAux_eq_some _ _ _ s.length (s, h, p) ?_ ?_ ?_ ?_
  · have := List.length_pos.2 hs1
    omega
  · rw [List.length_append]
    omega
  · rw [List.take_left s (':' :: '/' :: '/' :: (h ++ ':' :: p)),
      List.drop_left s (':' :: '/' :: '/' :: (h ++ ':' :: p))]
    have hstrip : stripCSS (':' :: '/' :: '/' :: (h ++ ':' :: p)) = some (h ++ ':' :: p) := by
      simp [stripCSS]
    simp [urlCont, hstrip, matchHostPort_exact h p hh1 hh2 hp1 hp2]
  · intro j hj1 hj2
    have hn1 : noCSS ('/' :: '/' :: (h ++ ':' :: p)) = true := by
      apply noCSS_cons_of_ne _ _ (by decide)
      apply noCSS_cons_of_ne _ _ (by decide)
      apply noCSS_append_of _ _ (fun c hc => (hh2 c hc).2)
      obtain ⟨d, p', rfl⟩ := List.exists_cons_of_ne_nil hp1
      apply noCSS_colon_cons
      · exact noCSS_of_all_ne _ (fun c hc => digit_ne_colon c (hp2 c hc))
      · intro c hcc
        rw [List.head?_cons, Option.some_inj] at hcc
        subst hcc
        exact digit_ne_slash d (hp2 d (List.mem_cons_self d p'))
    have hdrop : (s ++ ':' :: '/' :: '/' :: (h ++ ':' :: p)).drop j
        = ('/' :: '/' :: (h ++ ':' :: p)).drop (j - s.length - 1) := by
      have h1 : (s ++ ':' :: '/' :: '/' :: (h ++ ':' :: p)).drop j
          = ((s ++ ':' :: '/' :: '/' :: (h ++ ':' :: p)).drop s.length).drop (j - s.length) := by
        rw [List.drop_drop]
        congr 1
        omega
      rw [h1, List.drop_left]
      obtain ⟨i, hi⟩ : ∃ i, j - s.length = i + 1 := ⟨j - s.length - 1, by omega⟩
      rw [hi, List.drop_succ_cons]
      congr 1
    have hncss : noCSS (('/' :: '/' :: (h ++ ':' :: p)).drop (j - s.length - 1)) = true :=
      noCSS_drop _ _ hn1
    rw [hdrop]
    simp only [urlCont, stripCSS_eq_none_of_noCSS _ hncss]

theorem findUrlMatch_exact (s h p : List Char)
    (hs1 : s ≠ []) (hs2 : ∀ c ∈ s, nonspace c = true ∧ ¬ c = ':')
    (hh1 : h ≠ []) (hh2 : ∀ c ∈ h, nonspace c = true ∧ ¬ c = ':')
    (hp1 : p ≠ []) (hp2 : ∀ c ∈ p, c.isDigit = true) :
    findUrlMatch (s ++ ':' :: '/' :: '/' :: (h ++ ':' :: p)) = some (s, h, p) := by
  obtain ⟨c, s', hcons⟩ := List.exists_cons_of_ne_nil hs1
  subst hcons
  rw [List.cons_append]
  simp only [findUrlMatch]
  rw [← List.cons_append, matchUrlAt_exact (c :: s') h p hs1 hs2 hh1 hh2 hp1 hp2]

/-! ## Exact result of pattern 3 on a well-formed `scheme://host` -/

theorem matchProtoAt_exact (s h : List Char)
    (hs1 : s ≠ []) (hs2 : ∀ c ∈ s, nonspace c = true ∧ ¬ c = ':')
    (hh1 : h ≠ []) (hh2 : ∀ c ∈ h, nonspace c = true ∧ ¬ c = ':') :
    matchProtoAt (s ++ ':' :: '/' :: '/' :: h) = some (s, h) := by
  have hall : ∀ c ∈ s ++ ':' :: '/' :: '/' :: h, nonspace c = true := by
    intro c hc
    rcases List.mem_append.1 hc with hc | hc
    · exact (hs2 c hc).1
    · rcases List.mem_cons.1 hc with rfl | hc
      · decide
      · rcases List.mem_cons.1 hc with rfl | hc
        · decide
        · rcases List.mem_cons.1 hc with rfl | hc
          · decide
          · exact (hh2 c hc).1
  unfold matchProtoAt greedyPlus
  rw [takeWhile_all_eq nonspace _ hall]
  refine gpAux_eq_some _ _ _ s.length (s, h) ?_ ?_ ?_ ?_
  · have := List.length_pos.2 hs1
    omega
  · rw [List.length_append]
    omega
  · rw [List.take_left s (':' :: '/' :: '/' :: h), List.drop_left s (':' :: '/' :: '/' :: h)]
    have hstrip : stripCSS (':' :: '/' :: '/' :: h) = some h := by
      simp [stripCSS]
    have htok : matchTokenGreedy h = some (h, []) := by
      simp [matchTokenGreedy, takeWhile_all_eq nonspace h (fun c hc => (hh2 c hc).1), hh1]
    simp [protoCont, hstrip, htok]
  · intro j hj1 hj2
    have hn1 : noCSS ('/' :: '/' :: h) = true := by
      apply noCSS_cons_of_ne _ _ (by decide)
      apply noCSS_cons_of_ne _ _ (by decide)
      exact noCSS_of_all_ne _ (fun c hc => (hh2 c hc).2)
    have hdrop : (s ++ ':' :: '/' :: '/' :: h).drop j
        = ('/' :: '/' :: h).drop (j - s.length - 1) := by
      have h1 : (s ++ ':' :: '/' :: '/' :: h).drop j
          = ((s ++ ':' :: '/' :: '/' :: h).drop s.length).drop (j - s.length) := by
        rw [List.drop_drop]
        congr 1
        omega
      rw [h1, List.drop_left]
      obtain ⟨i, hi⟩ : ∃ i, j - s.length = i + 1 := ⟨j - s.length - 1, by omega⟩
      rw [hi, List.drop_succ_cons]
      congr 1
    have hncss : noCSS (('/' :: '/' :: h).drop (j - s.length - 1)) = true :=
      noCSS_drop _ _ hn1
    rw [hdrop]
    simp only [protoCont, stripCSS_eq_none_of_noCSS _ hncss]

theorem findProtoMatch_exact (s h : List Char)
    (hs1 : s ≠ []) (hs2 : ∀ c ∈ s, nonspace c = true ∧ ¬ c = ':')
    (hh1 : h ≠ []) (hh2 : ∀ c ∈ h, nonspace c = true ∧ ¬ c = ':') :
    findProtoMatch (s ++ ':' :: '/' :: '/' :: h) = some (s, h) := by
  obtain ⟨c, s', hcons⟩ := List.exists_cons_of_ne_nil hs1
  subst hcons
  rw [List.cons_append]
  simp only [findProtoMatch]
  rw [← List.cons_append, matchProtoAt_exact (c :: s') h hs1 hs2 hh1 hh2]

/-! ## Decomposition of successful matches -/

theorem urlCont_some (g r : List Char) (g1 g2 g3 : List Char)
    (h : urlCont g r = some (g1, g2, g3)) :
    g = g1 ∧ ∃ r2, stripCSS r = some r2 := by
  cases hst : stripCSS r with
  | none => simp only [urlCont, hst] at h; exact absurd h (by simp)
  | some r2 =>
    simp only [urlCont, hst] at h
    cases hmp : matchHostPort r2 with
    | none => rw [hmp] at h; exact absurd h (by simp)
    | some hd =>
      rw [hmp] at h
      obtain ⟨hh, hdd⟩ := hd
      simp only [Option.some_inj, Prod.mk.injEq] at h
      exact ⟨h.1, r2, rfl⟩

theorem matchUrlAt_some_decomp (l : List Char) (g1 g2 g3 : List Char)
    (h : matchUrlAt l = some (g1, g2, g3)) :
    ∃ r, l = g1 ++ ':' :: '/' :: '/' :: r := by
  unfold matchUrlAt greedyPlus at h
  obtain ⟨j, _, _, hk⟩ := gpAux_some_split l urlCont _ _ h
  obtain ⟨hg, r2, hst⟩ := urlCont_some _ _ _ _ _ hk
  refine ⟨r2, ?_⟩
  rw [← hg, ← stripCSS_eq_some _ _ hst]
  exact (List.take_append_drop j l).symm

theorem findUrlMatch_some_decomp : ∀ (l : List Char) (g1 g2 g3 : List Char),
    findUrlMatch l = some (g1, g2, g3) →
    ∃ pre r, l = pre ++ g1 ++ ':' :: '/' :: '/' :: r := by
  intro l
  induction l with
  | nil => intro g1 g2 g3 h; exact absurd h (by simp [findUrlMatch])
  | cons c t ih =>
    intro g1 g2 g3 h
    cases hm : matchUrlAt (c :: t) with
    | some m =>
      rw [findUrlMatch, hm] at h
      obtain rfl : m = (g1, g2, g3) := Option.some_inj.1 h
      obtain ⟨r, hr⟩ := matchUrlAt_some_decomp (c :: t) g1 g2 g3 hm
      exact ⟨[], r, by simpa using hr⟩
    | none =>
      rw [findUrlMatch, hm] at h
      obtain ⟨pre, r, hr⟩ := ih g1 g2 g3 h
      exact ⟨c :: pre, r, by simp [hr]⟩

theorem protoCont_some (g r : List Char) (g1 g2 : List Char)
    (h : protoCont g r = some (g1, g2)) :
    g = g1 ∧ ∃ r2, stripCSS r = some r2 := by
  cases hst : stripCSS r with
  | none => simp only [protoCont, hst] at h; exact absurd h (by simp)
  | some r2 =>
    simp only [protoCont, hst] at h
    cases hmp : matchTokenGreedy r2 with
    | none => rw [hmp] at h; exact absurd h (by simp)
    | some hd =>
      rw [hmp] at h
      obtain ⟨hh, hdd⟩ := hd
      simp only [Option.some_inj, Prod.mk.injEq] at h
      exact ⟨h.1, r2, rfl⟩

theorem matchProtoAt_some_decomp (l : List Char) (g1 g2 : List Char)
    (h : matchProtoAt l = some (g1, g2)) :
    ∃ r, l = g1 ++ ':' :: '/' :: '/' :: r := by
  unfold matchProtoAt greedyPlus at h
  obtain ⟨j, _, _, hk⟩ := gpAux_some_split l protoCont _ _ h
  obtain ⟨hg, r2, hst⟩ := protoCont_some _ _ _ _ hk
  refine ⟨r2, ?_⟩
  rw [← hg, ← stripCSS_eq_some _ _ hst]
  exact (List.take_append_drop j l).symm

theorem findProtoMatch_some_decomp : ∀ (l : List Char) (g1 g2 : List Char),
    findProtoMatch l = some (g1, g2) →
    ∃ pre r, l = pre ++ g1 ++ ':' :: '/' :: '/' :: r := by
  intro l
  induction l with
  | nil => intro g1 g2 h; exact absurd h (by simp [findProtoMatch])
  | cons c t ih =>
    intro g1 g2 h
    cases hm : matchProtoAt (c :: t) with
    | some m =>
      rw [findProtoMatch, hm] at h
      obtain rfl : m = (g1, g2) := Option.some_inj.1 h
      obtain ⟨r, hr⟩ := matchProtoAt_some_decomp (c :: t) g1 g2 hm
      exact ⟨[], r, by simpa using hr⟩
    | none =>
      rw [findProtoMatch, hm] at h
      obtain ⟨pre, r, hr⟩ := ih g1 g2 h
      exact ⟨c :: pre, r, by simp [hr]⟩

/-! ## String helpers -/

theorem string_mk_data (u : String) : String.mk u.data = u := rfl

theorem keyword_no_colon (u : String) (hc : ':' ∈ u.data)
    (hk : u = "debug" ∨ u = "stdout" ∨ u = "stderr" ∨ u = "dummy" ∨ u = "sink") : False := by
  rcases hk with rfl | rfl | rfl | rfl | rfl <;> exact absurd hc (by decide)

/-! ## Channel and worker lemmas -/

theorem PushStdout_some (st st2 : PublisherStdoutState) (s : String)
    (h : PushStdout st s = some st2) :
    st.ch.length < st.cap ∧ st2 = { st with ch := st.ch ++ [s] } := by
  unfold PushStdout chanSend at h
  by_cases hlt : st.ch.length < st.cap
  · rw [if_pos hlt] at h
    exact ⟨hlt, (Option.some_inj.1 h).symm⟩
  · rw [if_neg hlt] at h
    exact absurd h (by simp)

theorem PushRsyslog_some (st st2 : PublisherRsyslogState) (s : String)
    (h : PushRsyslog st s = some st2) :
    st.ch.length < st.cap ∧ st2 = { st with ch := st.ch ++ [s] } := by
  unfold PushRsyslog chanSend at h
  by_cases hlt : st.ch.length < st.cap
  · rw [if_pos hlt] at h
    exact ⟨hlt, (Option.some_inj.1 h).symm⟩
  · rw [if_neg hlt] at h
    exact absurd h (by simp)

theorem workerStepStdout_some (st st2 : PublisherStdoutState)
    (h : workerStepStdout st = some st2) :
    ∃ s rest, st.ch = s :: rest
      ∧ st2 = { st with ch := rest, output := st.output ++ [s ++ "\n"] } := by
  unfold workerStepStdout at h
  cases hch : st.ch with
  | nil => rw [hch] at h; exact absurd h (by simp)
  | cons s rest =>
    rw [hch] at h
    exact ⟨s, rest, rfl, (Option.some_inj.1 h).symm⟩

theorem workerStepRsyslog_some (st st2 : PublisherRsyslogState)
    (h : workerStepRsyslog st = some st2) :
    ∃ s rest, st.ch = s :: rest
      ∧ st2 = { st with ch := rest, delivered := st.delivered ++ [s ++ "\n"] } := by
  unfold workerStepRsyslog at h
  cases hch : st.ch with
  | nil => rw [hch] at h; exact absurd h (by simp)
  | cons s rest =>
    rw [hch] at h
    exact ⟨s, rest, rfl, (Option.some_inj.1 h).symm⟩

theorem runStdout_line_invariant : ∀ (ops : List LogOp) (st st2 : PublisherStdoutState),
    runStdout ops st = some st2 →
    st2.output ++ st2.ch.map (fun s => s ++ "\n")
      = (st.output ++ st.ch.map (fun s => s ++ "\n"))
        ++ (pushedEntries ops).map (fun s => s ++ "\n") := by
  intro ops
  induction ops with
  | nil =>
    intro st st2 h
    obtain rfl : st = st2 := Option.some_inj.1 h
    simp [pushedEntries]
  | cons op rest ih =>
    intro st st2 h
    cases op with
    | push s =>
      cases hp : PushStdout st s with
      | none => rw [runStdout, hp] at h; exact absurd h (by simp)
      | some st1 =>
        rw [runStdout, hp] at h
        obtain ⟨_, rfl⟩ := PushStdout_some st st1 s hp
        have hinv := ih _ st2 h
        rw [hinv]
        simp [pushedEntries, List.append_assoc]
    | work =>
      cases hp : workerStepStdout st with
      | none => rw [runStdout, hp] at h; exact absurd h (by simp)
      | some st1 =>
        rw [runStdout, hp] at h
        obtain ⟨s, rest2, hch, rfl⟩ := workerStepStdout_some st st1 hp
        have hinv := ih _ st2 h
        rw [hinv]
        simp [pushedEntries, hch, List.append_assoc]

theorem runStdout_cap_invariant : ∀ (ops : List LogOp) (st st2 : PublisherStdoutState),
    runStdout ops st = some st2 →
    st2.cap = st.cap ∧ (st.ch.length ≤ st.cap → st2.ch.length ≤ st2.cap) := by
  intro ops
  induction ops with
  | nil =>
    intro st st2 h
    obtain rfl : st = st2 := Option.some_inj.1 h
    exact ⟨rfl, fun h => h⟩
  | cons op rest ih =>
    intro st st2 h
    cases op with
    | push s =>
      cases hp : PushStdout st s with
      | none => rw [runStdout, hp] at h; exact absurd h (by simp)
      | some st1 =>
        rw [runStdout, hp] at h
        obtain ⟨hlt, rfl⟩ := PushStdout_some st st1 s hp
        obtain ⟨hcap, hlen⟩ := ih _ st2 h
        refine ⟨hcap, fun _ => ?_⟩
        apply hlen
        simp only [List.length_append, List.length_cons, List.length_nil]
        omega
    | work =>
      cases hp : workerStepStdout st with
      | none => rw [runStdout, hp] at h; exact absurd h (by simp)
      | some st1 =>
        rw [runStdout, hp] at h
        obtain ⟨s, rest2, hch, rfl⟩ := workerStepStdout_some st st1 hp
        obtain ⟨hcap, hlen⟩ := ih _ st2 h
        refine ⟨hcap, fun hc => ?_⟩
        apply hlen
        show rest2.length ≤ st.cap
        rw [hch] at hc
        simp only [List.length_cons] at hc
        omega

theorem runRsyslog_cap_invariant : ∀ (ops : List LogOp) (st st2 : PublisherRsyslogState),
    runRsyslog ops st = some st2 →
    st2.cap = st.cap ∧ (st.ch.length ≤ st.cap → st2.ch.length ≤ st2.cap) := by
  intro ops
  induction ops with
  | nil =>
    intro st st2 h
    obtain rfl : st = st2 := Option.some_inj.1 h
    exact ⟨rfl, fun h => h⟩
  | cons op rest ih =>
    intro st st2 h
    cases op with
    | push s =>
      cases hp : PushRsyslog st s with
      | none => rw [runRsyslog, hp] at h; exact absurd h (by simp)
      | some st1 =>
        rw [runRsyslog, hp] at h
        obtain ⟨hlt, rfl⟩ := PushRsyslog_some st st1 s hp
        obtain ⟨hcap, hlen⟩ := ih _ st2 h
        refine ⟨hcap, fun _ => ?_⟩
        apply hlen
        simp only [List.length_append, List.length_cons, List.length_nil]
        omega
    | work =>
      cases hp : workerStepRsyslog st with
      | none => rw [runRsyslog, hp] at h; exact absurd h (by simp)
      | some st1 =>
        rw [runRsyslog, hp] at h
        obtain ⟨s, rest2, hch, rfl⟩ := workerStepRsyslog_some st st1 hp
        obtain ⟨hcap, hlen⟩ := ih _ st2 h
        refine ⟨hcap, fun hc => ?_⟩
        apply hlen
        show rest2.length ≤ st.cap
        rw [hch] at hc
        simp only [List.length_cons] at hc
        omega

/-! ## Helpers about `New` -/

theorem string_ne_empty_of_data (a : String) (h : a.data ≠ []) : a ≠ "" := by
  intro he
  apply h
  rw [he]

theorem append_data_ne_nil (a b : String) (ha : a.data ≠ []) : (a ++ b).data ≠ [] := by
  rw [String.data_append]
  intro hx
  exact ha (List.append_eq_nil.1 hx).1

theorem New_parse_error_eq (cfg : String) (chSize : Nat) (os : OsModel) (e : String)
    (hne : ¬ cfg = "") (herr : ParseLoggerUrl cfg = .error e) :
    New cfg chSize os = (some NewDummy, "Transaction log goes to sink") := by
  simp [New, hne, herr]

theorem New_ok_eq (cfg : String) (chSize : Nat) (os : OsModel) (pm : LoggerParameters)
    (hne : ¬ cfg = "") (hp : ParseLoggerUrl cfg = .ok pm) :
    New cfg chSize os =
      (if pm.Protocol = "rsyslog" then
        match NewRsyslog chSize pm.Host pm.Port "" os with
        | .error e =>
          (none, "Failed to dial rsyslog " ++ pm.Host ++ ":" ++ toString pm.Port ++ " " ++ e)
        | .ok pub =>
          (some pub, "Transaction log goes to rsyslog " ++ pm.Host ++ ":" ++ toString pm.Port)
      else if pm.Protocol = "dummy" ∨ pm.Protocol = "sink" then
        (some NewDummy, "Transaction log goes to sink")
      else if pm.Protocol = "debug" then
        (some NewDebug, "Transaction log goes to the service logger")
      else if pm.Protocol = "stdout" then
        (some (NewStdout chSize StreamDest.stdoutFd), "Transaction log goes to the stdout")
      else if pm.Protocol = "stderr" then
        (some (NewStdout chSize StreamDest.stderrFd), "Transaction log goes to the stderr")
      else if pm.Protocol = "file" then
        (if os.createOk pm.Host then
          (some (NewStdout chSize (StreamDest.file pm.Host)),
            "Transaction log goes to the file \x27" ++ pm.Host ++ "\x27")
        else
          (some NewDummy,
            "Failed to open transaction log file \x27" ++ pm.Host ++ "\x27 for writing"))
      else (none, "")) := by
  simp [New, hne, hp]

/-! ## Claim theorems -/

/-- C1 counterexample: for the configuration string `tcp://h:1` the parser
succeeds with protocol `tcp`, the switch in `New` has no matching case and no
default, so `New` returns a nil `Publisher` interface together with an empty
status string — the caller does receive an unusable Publisher. -/
theorem new_unknown_scheme_nil_counterexample :
    New "tcp://h:1" 32768 osAllOk = (none, "") := by
  decide

/-- C1 (amended): `New` returns a usable (non-nil) Publisher and a non-empty
status string whenever the parsed protocol is one of the handled cases
dummy, sink, debug, stdout, stderr, file (or the parse failed, which falls
back to dummy), and for rsyslog whenever the dial succeeds.  For rsyslog
with a failing dial the Publisher is nil (the known rough edge), and for any
other scheme the switch falls through leaving a nil Publisher and an empty
status. -/
theorem new_usable_publisher_amended (cfg : String) (chSize : Nat) (os : OsModel)
    (hne : ¬ cfg = "")
    (h : ∀ pm, ParseLoggerUrl cfg = .ok pm →
      pm.Protocol ∈ (["dummy", "sink", "debug", "stdout", "stderr", "file"] : List String)
        ∨ (pm.Protocol = "rsyslog"
            ∧ os.dialErr (pm.Host ++ ":" ++ toString pm.Port) = none)) :
    (New cfg chSize os).1.isSome = true ∧ (New cfg chSize os).2 ≠ "" := by
  cases hp : ParseLoggerUrl cfg with
  | error e =>
    rw [New_parse_error_eq cfg chSize os e hne hp]
    exact ⟨rfl, by simp⟩
  | ok pm =>
    rw [New_ok_eq cfg chSize os pm hne hp]
    rcases h pm hp with hmem | ⟨hproto, hdial⟩
    · simp only [List.mem_cons, List.not_mem_nil, or_false] at hmem
      rcases hmem with h1 | h1 | h1 | h1 | h1 | h1
      · simp [h1]
      · simp [h1]
      · simp [h1]
      · simp [h1]
      · simp [h1]
      · cases hc : os.createOk pm.Host with
        | true =>
          have hmsg : ("Transaction log goes to the file \x27" ++ pm.Host ++ "\x27" : String)
              ≠ "" :=
            string_ne_empty_of_data _ (append_data_ne_nil _ _ (append_data_ne_nil _ _
              (by decide)))
          simp [h1, hc, hmsg]
        | false =>
          have hmsg : ("Failed to open transaction log file \x27" ++ pm.Host
              ++ "\x27 for writing" : String) ≠ "" :=
            string_ne_empty_of_data _ (append_data_ne_nil _ _ (append_data_ne_nil _ _
              (by decide)))
          simp [h1, hc, hmsg]
    · have hmsg : ("Transaction log goes to rsyslog " ++ pm.Host ++ ":"
          ++ toString pm.Port : String) ≠ "" :=
        string_ne_empty_of_data _ (append_data_ne_nil _ _ (append_data_ne_nil _ _
          (append_data_ne_nil _ _ (by decide))))
      simp [hproto, NewRsyslog, hdial, hmsg]

/-- C1 witness: the amended theorem applied to the configuration `stdout`. -/
theorem new_usable_publisher_amended_witness :
    (New "stdout" 32768 osAllOk).1.isSome = true ∧ (New "stdout" 32768 osAllOk).2 ≠ "" := by
  apply new_usable_publisher_amended "stdout" 32768 osAllOk (by decide)
  intro pm hpm
  rw [show ParseLoggerUrl "stdout"
      = .ok { Protocol := "stdout", Port := 0, Host := "localhost" } from by decide] at hpm
  obtain rfl := Except.ok.inj hpm
  left
  decide

/-- C2 counterexample: `Push` is the unconditional channel send `this.ch <- s`;
on a queue already holding capacity entries the send has no completed state at
all (the caller blocks).  It does not discard the entry and return. -/
theorem push_full_queue_counterexample :
    PushStdout { cap := 1, ch := ["a"], output := [] } "b" = none
      ∧ PushRsyslog { cap := 1, ch := ["a"], raddr := "h:514", tag := "", delivered := [] } "b"
        = none := by
  constructor <;> rfl

/-- C2 (amended): for every Stream or Remote-Syslog Publisher whose delivery
queue already holds at least capacity entries, `Push` blocks the caller (the
unconditional buffered-channel send cannot complete) — the implemented policy
is blocking enqueue, not drop-on-full; an entry is never silently discarded. -/
theorem push_full_queue_blocks (a : PublisherStdoutState) (b : PublisherRsyslogState)
    (s t : String) (ha : a.cap ≤ a.ch.length) (hb : b.cap ≤ b.ch.length) :
    PushStdout a s = none ∧ PushRsyslog b t = none := by
  constructor
  · unfold PushStdout chanSend
    rw [if_neg (by omega)]
  · unfold PushRsyslog chanSend
    rw [if_neg (by omega)]

/-- C2 witness: the amended theorem applied to full queues of capacity 2. -/
theorem push_full_queue_blocks_witness :
    PushStdout { cap := 2, ch := ["a", "b"], output := [] } "c" = none
      ∧ PushRsyslog { cap := 2, ch := ["a", "b"], raddr := "h:514", tag := "", delivered := [] }
        "c" = none :=
  push_full_queue_blocks _ _ "c" "c" (by decide) (by decide)

/-- C3 counterexample: on the unparseable configuration `not-a-url`, `New`
does return a functioning Null Publisher and a non-empty status, but the
status is the generic sink message: the parse diagnostic composed earlier is
overwritten by the dummy branch of the switch, so the returned status does
not report the parse failure (it does not even contain the word Failed). -/
theorem parse_failure_status_counterexample :
    New "not-a-url" 32768 osAllOk = (some Publisher.dummy, "Transaction log goes to sink")
      ∧ containsSeq ("Failed".data) (New "not-a-url" 32768 osAllOk).2.data = false := by
  constructor <;> decide

/-- C3 (amended): for every configuration string on which the URL parser
fails, `New` does not raise: it returns the Null (dummy) Publisher and the
non-empty status string "Transaction log goes to sink" — the parse-failure
diagnostic is overwritten by the dummy branch and never surfaces. -/
theorem parse_failure_sink_fallback (cfg : String) (chSize : Nat) (os : OsModel) (e : String)
    (hne : ¬ cfg = "") (herr : ParseLoggerUrl cfg = .error e) :
    New cfg chSize os = (some NewDummy, "Transaction log goes to sink") :=
  New_parse_error_eq cfg chSize os e hne herr

/-- C3 witness: the amended theorem applied to the configuration `not-a-url`. -/
theorem parse_failure_sink_fallback_witness :
    New "not-a-url" 32768 osAllOk = (some NewDummy, "Transaction log goes to sink") :=
  parse_failure_sink_fallback "not-a-url" 32768 osAllOk "Failed to parse not-a-url"
    (by decide) (by decide)

/-- C4: for a descriptor with protocol `file`, if opening the target path for
writing (`os.Create`) fails, `New` falls back to the Null variant and reports
the failure in the status string; if it succeeds, `New` returns a Stream
variant wrapping the opened file handle (an `os.Chmod` failure alone changes
nothing: both its message and its dummy publisher are overwritten by the
`os.Create` outcome). -/
theorem file_protocol_fallback (cfg : String) (chSize : Nat) (os : OsModel)
    (pm : LoggerParameters) (hne : ¬ cfg = "") (hp : ParseLoggerUrl cfg = .ok pm)
    (hproto : pm.Protocol = "file") :
    (os.createOk pm.Host = false →
        New cfg chSize os = (some NewDummy,
          "Failed to open transaction log file \x27" ++ pm.Host ++ "\x27 for writing"))
      ∧ (os.createOk pm.Host = true →
        New cfg chSize os = (some (NewStdout chSize (StreamDest.file pm.Host)),
          "Transaction log goes to the file \x27" ++ pm.Host ++ "\x27")) := by
  rw [New_ok_eq cfg chSize os pm hne hp]
  constructor <;> intro hc <;> simp [hproto, hc]

/-- C4 witness: the theorem applied to `file:///var/log/x.log` under an
operating system in which `os.Create` fails. -/
theorem file_protocol_fallback_witness :
    (osCreateFails.createOk "/var/log/x.log" = false →
        New "file:///var/log/x.log" 32768 osCreateFails = (some NewDummy,
          "Failed to open transaction log file \x27" ++ "/var/log/x.log"
            ++ "\x27 for writing"))
      ∧ (osCreateFails.createOk "/var/log/x.log" = true →
        New "file:///var/log/x.log" 32768 osCreateFails
          = (some (NewStdout 32768 (StreamDest.file "/var/log/x.log")),
            "Transaction log goes to the file \x27" ++ "/var/log/x.log" ++ "\x27")) :=
  file_protocol_fallback "file:///var/log/x.log" 32768 osCreateFails
    { Protocol := "file", Port := 0, Host := "/var/log/x.log" }
    (by decide) (by decide) (by decide)

/-- C5 counterexample: for the input `rsyslog://h:1x` the suffix after the
final colon is `1x`, which is not all digits — yet pattern 2 does match,
because the regex is unanchored: the greedy `[0-9]+` simply stops before the
`x`, yielding port 1.  Parsing does not fall through to pattern 3 (which
would have kept `h:1x` in the host with default port 514). -/
theorem malformed_port_counterexample :
    findUrlMatch ("rsyslog://h:1x".data) = some ("rsyslog".data, "h".data, "1".data)
      ∧ ParseLoggerUrl "rsyslog://h:1x" = .ok { Protocol := "rsyslog", Port := 1, Host := "h" } := by
  constructor <;> decide

/-- C5 (amended): pattern 2 fails to match only when no colon of the input is
immediately followed by a digit.  In particular, for an input
`scheme://host:suffix` whose suffix starts with a non-digit and contains no
colon-digit pair of its own (`noColonDigit` on the final `:suffix` part),
pattern 2 does not match at all and parsing falls through to pattern 3 or to
failure.  (A suffix that merely is not all digits does not suffice: when it
starts with digits, pattern 2 matches and takes the leading digit run as the
port.) -/
theorem no_colon_digit_fallthrough (url : String) (s h x : List Char)
    (hu : url.data = s ++ ':' :: '/' :: '/' :: (h ++ ':' :: x))
    (hs : ∀ c ∈ s, ¬ c = ':') (hh : ∀ c ∈ h, ¬ c = ':')
    (hx : noColonDigit (':' :: x) = true) :
    findUrlMatch url.data = none
      ∧ ParseLoggerUrl url
        = (match findProtoMatch url.data with
          | some (g1, g2) =>
            .ok { Port := if String.mk g1 = "rsyslog" then 514 else 0
                  Host := String.mk g2
                  Protocol := String.mk g1 }
          | none => .error ("Failed to parse " ++ url)) := by
  have hcolon : ':' ∈ url.data := by
    rw [hu]
    exact List.mem_append_right _ (List.mem_cons_self _ _)
  have hncd : noColonDigit url.data = true := by
    rw [hu]
    apply noColonDigit_append_of _ _ hs
    apply noColonDigit_colon_cons
    · apply noColonDigit_cons_of_ne _ _ (by decide)
      apply noColonDigit_cons_of_ne _ _ (by decide)
      exact noColonDigit_append_of _ _ hh hx
    · intro c hc
      rw [List.head?_cons, Option.some_inj] at hc
      subst hc
      decide
  have hfu : findUrlMatch url.data = none := findUrlMatch_none url.data hncd
  refine ⟨hfu, ?_⟩
  unfold ParseLoggerUrl
  rw [if_neg (fun hk => keyword_no_colon url hcolon hk), hfu]

/-- C5 witness: the amended theorem applied to `rsyslog://h:x` (suffix `x`
after the final colon starts with a non-digit). -/
theorem no_colon_digit_fallthrough_witness :
    findUrlMatch ("rsyslog://h:x".data) = none
      ∧ ParseLoggerUrl "rsyslog://h:x"
        = (match findProtoMatch ("rsyslog://h:x".data) with
          | some (g1, g2) =>
            .ok { Port := if String.mk g1 = "rsyslog" then 514 else 0
                  Host := String.mk g2
                  Protocol := String.mk g1 }
          | none => .error ("Failed to parse " ++ "rsyslog://h:x")) :=
  no_colon_digit_fallthrough "rsyslog://h:x" ("rsyslog".data) ("h".data) ("x".data)
    (by decide) (by decide) (by decide) (by decide)

/-- C6: for every input of the form `scheme://host:port` — scheme and host
nonempty, free of whitespace and of colons, port a nonempty digit string
whose value fits in a 64-bit int — the parser returns exactly
protocol = scheme, host, and the numeric port; in particular
`rsyslog://127.0.0.1:514` yields protocol rsyslog, host 127.0.0.1,
port 514 (see the witness), without swallowing the port into the host. -/
theorem url_with_port_parse (url s h p : String)
    (hu : url.data = s.data ++ ':' :: '/' :: '/' :: (h.data ++ ':' :: p.data))
    (hs1 : s.data ≠ []) (hs2 : ∀ c ∈ s.data, nonspace c = true ∧ ¬ c = ':')
    (hh1 : h.data ≠ []) (hh2 : ∀ c ∈ h.data, nonspace c = true ∧ ¬ c = ':')
    (hp1 : p.data ≠ []) (hp2 : ∀ c ∈ p.data, c.isDigit = true)
    (hval : digitsVal p.data < 2 ^ 63) :
    ParseLoggerUrl url
      = .ok { Protocol := s, Port := Int.ofNat (digitsVal p.data), Host := h } := by
  have hcolon : ':' ∈ url.data := by
    rw [hu]
    exact List.mem_append_right _ (List.mem_cons_self _ _)
  have hatoi : goAtoi p.data = Int.ofNat (digitsVal p.data) := by
    unfold goAtoi
    congr 1
    omega
  unfold ParseLoggerUrl
  rw [if_neg (fun hk => keyword_no_colon url hcolon hk), hu,
    findUrlMatch_exact s.data h.data p.data hs1 hs2 hh1 hh2 hp1 hp2]
  simp [hatoi, string_mk_data]

/-- C6 witness: the theorem applied to `rsyslog://127.0.0.1:514`. -/
theorem url_with_port_parse_witness :
    ParseLoggerUrl "rsyslog://127.0.0.1:514"
      = .ok { Protocol := "rsyslog", Port := 514, Host := "127.0.0.1" } := by
  have h := url_with_port_parse "rsyslog://127.0.0.1:514" "rsyslog" "127.0.0.1" "514"
    (by decide) (by decide) (by decide) (by decide) (by decide) (by decide) (by decide)
    (by decide)
  exact h.trans (by decide)

/-- C7: for every input of the form `scheme://host` with no explicit port
(scheme and host nonempty, whitespace- and colon-free), the parser returns
port 514 exactly when the scheme is rsyslog and port 0 for every other
scheme; in particular `file:///var/log/x.log` yields protocol file,
host /var/log/x.log, port 0 (see the witness). -/
theorem url_without_port_parse (url s h : String)
    (hu : url.data = s.data ++ ':' :: '/' :: '/' :: h.data)
    (hs1 : s.data ≠ []) (hs2 : ∀ c ∈ s.data, nonspace c = true ∧ ¬ c = ':')
    (hh1 : h.data ≠ []) (hh2 : ∀ c ∈ h.data, nonspace c = true ∧ ¬ c = ':') :
    ParseLoggerUrl url
      = .ok { Protocol := s, Port := if s = "rsyslog" then 514 else 0, Host := h } := by
  have hcolon : ':' ∈ url.data := by
    rw [hu]
    exact List.mem_append_right _ (List.mem_cons_self _ _)
  have hncd : noColonDigit url.data = true := by
    rw [hu]
    apply noColonDigit_append_of _ _ (fun c hc => (hs2 c hc).2)
    apply noColonDigit_colon_cons
    · apply noColonDigit_cons_of_ne _ _ (by decide)
      apply noColonDigit_cons_of_ne _ _ (by decide)
      exact noColonDigit_of_all_ne _ (fun c hc => (hh2 c hc).2)
    · intro c hc
      rw [List.head?_cons, Option.some_inj] at hc
      subst hc
      decide
  unfold ParseLoggerUrl
  rw [if_neg (fun hk => keyword_no_colon url hcolon hk), findUrlMatch_none url.data hncd, hu,
    findProtoMatch_exact s.data h.data hs1 hs2 hh1 hh2]

/-- C7 witness: the theorem applied to `rsyslog://127.0.0.1` (default port
514) and to `file:///var/log/x.log` (port 0). -/
theorem url_without_port_parse_witness :
    ParseLoggerUrl "rsyslog://127.0.0.1"
        = .ok { Protocol := "rsyslog", Port := 514, Host := "127.0.0.1" }
      ∧ ParseLoggerUrl "file:///var/log/x.log"
        = .ok { Protocol := "file", Port := 0, Host := "/var/log/x.log" } := by
  constructor
  · have h := url_without_port_parse "rsyslog://127.0.0.1" "rsyslog" "127.0.0.1"
      (by decide) (by decide) (by decide) (by decide) (by decide)
    exact h.trans (by decide)
  · have h := url_without_port_parse "file:///var/log/x.log" "file" "/var/log/x.log"
      (by decide) (by decide) (by decide) (by decide) (by decide)
    exact h.trans (by decide)

/-- C8 counterexample: the parser succeeds on `tcp://h:1` with protocol
`tcp`, which lies outside the closed enumeration
null/dummy/sink, debug, stdout, stderr, file, rsyslog claimed for
successfully parsed descriptors — the regex accepts any scheme. -/
theorem protocol_enumeration_counterexample :
    ParseLoggerUrl "tcp://h:1" = .ok { Protocol := "tcp", Port := 1, Host := "h" }
      ∧ ("tcp" : String) ∉
        (["null", "dummy", "sink", "debug", "stdout", "stderr", "file", "rsyslog"]
          : List String) := by
  constructor <;> decide

/-- C8 (amended): every descriptor produced by a successful parse either has
one of the five bare-keyword protocols (debug, stdout, stderr, dummy, sink)
or carries whatever scheme precedes a `://` occurrence of the input — the
protocol set of URL-form inputs is unconstrained. -/
theorem protocol_keyword_or_scheme (url : String) (pm : LoggerParameters)
    (h : ParseLoggerUrl url = .ok pm) :
    pm.Protocol ∈ (["debug", "stdout", "stderr", "dummy", "sink"] : List String)
      ∨ ∃ pre r, url.data = pre ++ pm.Protocol.data ++ ':' :: '/' :: '/' :: r := by
  unfold ParseLoggerUrl at h
  by_cases hk : url = "debug" ∨ url = "stdout" ∨ url = "stderr" ∨ url = "dummy" ∨ url = "sink"
  · rw [if_pos hk] at h
    obtain rfl := Except.ok.inj h
    left
    rcases hk with rfl | rfl | rfl | rfl | rfl <;> decide
  · rw [if_neg hk] at h
    cases hfu : findUrlMatch url.data with
    | some g =>
      obtain ⟨g1, g2, g3⟩ := g
      simp only [hfu] at h
      obtain rfl := Except.ok.inj h
      right
      obtain ⟨pre, r, hr⟩ := findUrlMatch_some_decomp url.data g1 g2 g3 hfu
      exact ⟨pre, r, hr⟩
    | none =>
      simp only [hfu] at h
      cases hfp : findProtoMatch url.data with
      | some g =>
        obtain ⟨g1, g2⟩ := g
        simp only [hfp] at h
        obtain rfl := Except.ok.inj h
        right
        obtain ⟨pre, r, hr⟩ := findProtoMatch_some_decomp url.data g1 g2 hfp
        exact ⟨pre, r, hr⟩
      | none =>
        simp only [hfp] at h
        exact absurd h (by simp)

/-- C8 witness: the amended theorem applied to `rsyslog://h:1`. -/
theorem protocol_keyword_or_scheme_witness :
    ("rsyslog" : String) ∈ (["debug", "stdout", "stderr", "dummy", "sink"] : List String)
      ∨ ∃ pre r, ("rsyslog://h:1".data)
          = pre ++ ("rsyslog" : String).data ++ ':' :: '/' :: '/' :: r := by
  have h := protocol_keyword_or_scheme "rsyslog://h:1"
    { Protocol := "rsyslog", Port := 1, Host := "h" } (by decide)
  simpa using h

/-- C9: for a Stream Publisher, in every completed interleaving of producer
pushes and worker steps starting from the fresh state, the lines written to
the output followed by the still-queued entries (each with its line
terminator) are exactly the pushed entries, in push order, each suffixed by
one "\n" and nothing else: deliveries are FIFO with line framing. -/
theorem stream_fifo_line_delivery (cap : Nat) (ops : List LogOp) (st : PublisherStdoutState)
    (h : runStdout ops (initStdoutState cap) = some st) :
    st.output ++ st.ch.map (fun s => s ++ "\n")
      = (pushedEntries ops).map (fun s => s ++ "\n") := by
  have hinv := runStdout_line_invariant ops (initStdoutState cap) st h
  simpa [initStdoutState] using hinv

/-- C9 witness: pushing a, b, c and then running the worker three times
writes exactly the lines a, b, c in that order. -/
theorem stream_fifo_line_delivery_witness :
    ({ cap := 4, ch := [], output := ["a\n", "b\n", "c\n"] } : PublisherStdoutState).output
        ++ ({ cap := 4, ch := [], output := ["a\n", "b\n", "c\n"] }
          : PublisherStdoutState).ch.map (fun s => s ++ "\n")
      = (pushedEntries [LogOp.push "a", LogOp.push "b", LogOp.push "c",
          LogOp.work, LogOp.work, LogOp.work]).map (fun s => s ++ "\n") :=
  stream_fifo_line_delivery 4
    [LogOp.push "a", LogOp.push "b", LogOp.push "c", LogOp.work, LogOp.work, LogOp.work]
    { cap := 4, ch := [], output := ["a\n", "b\n", "c\n"] } (by decide)

/-- C10: for every Stream and every Remote-Syslog Publisher, in every
completed interleaving of pushes and worker steps from the fresh state, the
delivery queue never holds more entries than the capacity fixed at
construction, and that capacity never changes. -/
theorem queue_capacity_bound (cap cap2 : Nat) (ops ops2 : List LogOp)
    (a : PublisherStdoutState) (b : PublisherRsyslogState) (raddr tag : String)
    (ha : runStdout ops (initStdoutState cap) = some a)
    (hb : runRsyslog ops2 (initRsyslogState cap2 raddr tag) = some b) :
    (a.ch.length ≤ cap ∧ a.cap = cap) ∧ (b.ch.length ≤ cap2 ∧ b.cap = cap2) := by
  obtain ⟨hc1, hl1⟩ := runStdout_cap_invariant ops _ a ha
  obtain ⟨hc2, hl2⟩ := runRsyslog_cap_invariant ops2 _ b hb
  simp only [initStdoutState] at hc1 hl1
  simp only [initRsyslogState] at hc2 hl2
  exact ⟨⟨hc1 ▸ hl1 (by simp), hc1⟩, ⟨hc2 ▸ hl2 (by simp), hc2⟩⟩

/-- C10 witness: the theorem applied to capacity-1 queues after the run
push a, work, push b. -/
theorem queue_capacity_bound_witness :
    ((({ cap := 1, ch := ["b"], output := ["a\n"] } : PublisherStdoutState).ch.length ≤ 1
        ∧ ({ cap := 1, ch := ["b"], output := ["a\n"] } : PublisherStdoutState).cap = 1))
      ∧ ((({ cap := 1, ch := ["b"], raddr := "h:514", tag := "", delivered := ["a\n"] }
            : PublisherRsyslogState).ch.length ≤ 1
        ∧ ({ cap := 1, ch := ["b"], raddr := "h:514", tag := "", delivered := ["a\n"] }
            : PublisherRsyslogState).cap = 1)) :=
  queue_capacity_bound 1 1 [LogOp.push "a", LogOp.work, LogOp.push "b"]
    [LogOp.push "a", LogOp.work, LogOp.push "b"]
    { cap := 1, ch := ["b"], output := ["a\n"] }
    { cap := 1, ch := ["b"], raddr := "h:514", tag := "", delivered := ["a\n"] }
    "h:514" "" (by decide) (by decide)
